import Mathlib

/-!
Verification of the VLCRepair utilities.

The development shallowly embeds the two Python scripts:

* `monalisa.py` — configures VLC's `vlcrc` to point at a SoundFont.
  Text lines are embedded as `List Char`; the pure line-merge algorithm
  `update_soundfont_in_lines` is translated directly, and the effectful
  `configure_vlc_soundfont` / `backup_file` pair is embedded as explicit
  state passing over a small filesystem record.

* `patch_vlc.py` — clones/updates VLC and applies patches.  The patch
  orchestration `apply_patches` (with `run`'s exit-on-failure semantics)
  is embedded as a function from an environment describing the patches
  directory and each patch's `git apply` exit status to the process
  outcome and the list of patches actually attempted.
-/

namespace VLCRepair

/-- A text line, as Python manipulates it: a sequence of characters
(the line terminator, when present, is part of the line). -/
abbrev Line := List Char

/-- Python `str.lstrip()` restricted to the ASCII whitespace the config
lines can contain: drop leading whitespace characters. -/
def lstrip (l : Line) : Line := l.dropWhile Char.isWhitespace

/-- Python `str.startswith(pre)`: Boolean test that `pre` begins `l`. -/
def startsWithL : List Char → List Char → Bool
  | [], _ => true
  | _ :: _, [] => false
  | p :: ps, c :: cs => p == c && startsWithL ps cs

/-- Python `line.endswith("\n")`: the last character is a newline. -/
def endsWithNewline (l : Line) : Bool := l.getLast? == some '\n'

/-- The canonical rendering `soundfont="{sf_path}"\n` built at
monalisa.py line 49. -/
def targetLine (sf_path : Line) : Line :=
  "soundfont=\"".data ++ sf_path ++ "\"\n".data

/-- The matching test of monalisa.py line 55: after stripping leading
whitespace the line starts with `soundfont=` or with `#soundfont=`. -/
def matchesSoundfont (l : Line) : Bool :=
  startsWithL "soundfont=".data (lstrip l) ||
  startsWithL "#soundfont=".data (lstrip l)

/-- An active (uncommented) soundfont line: after stripping leading
whitespace it starts with `soundfont=`. -/
def activeSoundfont (l : Line) : Bool :=
  startsWithL "soundfont=".data (lstrip l)

/-- The single element appended at monalisa.py line 66: a blank line
followed by a comment line, as one string. -/
def sepCommentLine : Line := "\n# Set by configure_vlc_soundfont.py\n".data

/-- monalisa.py lines 64-65: if the list is non-empty and its last
element does not end with a newline, append a newline to that element. -/
def ensureTrailingNewline : List Line → List Line
  | [] => []
  | [l] => if endsWithNewline l then [l] else [l ++ ['\n']]
  | l :: ls => l :: ensureTrailingNewline ls

/-- monalisa.py `update_soundfont_in_lines` (lines 45-69).  The scan
loop replaces each matching line with the target line and records in
`found` whether any line matched, which is exactly a `map` together
with an `any`; if nothing matched, the append branch of lines 62-67
runs. -/
def update_soundfont_in_lines (lines : List Line) (sf_path : Line) : List Line :=
  let target_line := targetLine sf_path
  let updated := lines.map (fun l => if matchesSoundfont l then target_line else l)
  if lines.any matchesSoundfont then
    updated
  else
    ensureTrailingNewline updated ++ [sepCommentLine, target_line]

/-! Stateful part of `monalisa.py`: `get_vlc_config_file`, `backup_file`
and `configure_vlc_soundfont` (lines 20-91), embedded as explicit state
passing over the filesystem facts those functions consult or mutate. -/

/-- The filesystem state seen by `configure_vlc_soundfont`:
whether the given SoundFont path is a regular file, the `APPDATA`
environment value, whether the `%APPDATA%\vlc` directory exists, and
the contents (as lines) of `vlcrc` and of its `.bak` sibling, `none`
when the file does not exist. -/
structure FS where
  sfIsFile : Bool
  appdata : Option (List Char)
  configDirExists : Bool
  config : Option (List Line)
  backup : Option (List Line)
  deriving DecidableEq

/-- Errors raised before any write of the configuration file:
`FileNotFoundError` at monalisa.py line 78 and the `RuntimeError` of
line 29. -/
inductive ConfigError where
  | fileNotFound
  | appdataMissing
  deriving DecidableEq

/-- monalisa.py `get_vlc_config_file` (lines 20-32): fail when `APPDATA`
is unset, otherwise create the config directory and return its state
(the returned path itself is not material to the claims). -/
def get_vlc_config_file (s : FS) : Except ConfigError FS :=
  match s.appdata with
  | none => .error .appdataMissing
  | some _ => .ok { s with configDirExists := true }

/-- monalisa.py `backup_file` (lines 35-42): if `vlcrc` exists and no
backup exists yet, copy its bytes to the backup. -/
def backup_file (s : FS) : FS :=
  match s.config with
  | none => s
  | some content =>
      match s.backup with
      | none => { s with backup := some content }
      | some _ => s

/-- monalisa.py `configure_vlc_soundfont` (lines 72-91): validate the
SoundFont path, locate the config file, back it up, read it (empty when
absent), merge, and write the merged lines back.  The pair returned is
the outcome together with the filesystem state after the call; on an
error the state is the one reached when the exception was raised. -/
def configure_vlc_soundfont (sf_path : Line) (s : FS) :
    Except ConfigError Unit × FS :=
  if s.sfIsFile = false then
    (.error .fileNotFound, s)
  else
    match get_vlc_config_file s with
    | .error e => (.error e, s)
    | .ok s1 =>
        let s2 := backup_file s1
        let lines := match s2.config with
          | some content => content
          | none => []
        let new_lines := update_soundfont_in_lines lines sf_path
        (.ok (), { s2 with config := some new_lines })

/-- Repeated invocations of `configure_vlc_soundfont`: the filesystem
state after running the tool once for each SoundFont path in `sfs`,
threading the state through and discarding each run's outcome. -/
def configureMany (sfs : List Line) (s : FS) : FS :=
  sfs.foldl (fun st sf => (configure_vlc_soundfont sf st).2) s

/-! Embedding of `patch_vlc.py`'s patch orchestration: `run`
(lines 36-54) and `apply_patches` (lines 94-120). -/

/-- patch_vlc.py `run` (lines 36-54): `subprocess.run(..., check=True)`
raises `CalledProcessError` exactly when the command exits non-zero, and
the handler calls `sys.exit(returncode)`.  Given the command's exit
status, the result is `none` (control returns to the caller) or
`some code` (the whole process terminates with that status). -/
def run (code : Nat) : Option Nat :=
  if code = 0 then none else some code

/-- The environment `apply_patches` runs in: whether the patches
directory exists, the names of the `*.patch` files it contains, and the
exit status `git apply` (with the reverse flag) would return for each
patch name. -/
structure PatchEnv where
  patchesDirExists : Bool
  patchNames : List (List Char)
  applyStatus : List Char → Bool → Nat

/-- Lexicographic comparison of names, as Python's `sorted` orders the
globbed patch paths. -/
def lexLe : List Char → List Char → Bool
  | [], _ => true
  | _ :: _, [] => false
  | a :: as_, b :: bs =>
      if a < b then true
      else if b < a then false
      else lexLe as_ bs

/-- Stable insertion of a name into a sorted list of names. -/
def insertName (a : List Char) : List (List Char) → List (List Char)
  | [] => [a]
  | b :: bs => if lexLe b a then b :: insertName a bs else a :: b :: bs

/-- Python `sorted(patches_dir.glob("*.patch"))`: sort the patch names
lexicographically. -/
def sortNames : List (List Char) → List (List Char)
  | [] => []
  | a :: as_ => insertName a (sortNames as_)

/-- The loop of patch_vlc.py lines 114-120: apply each patch in order
through `run`; a non-zero `git apply` terminates the process.  Returns
the outcome (`none` = the loop completed, `some code` = the process
exited with `code`) together with the patches attempted, in order. -/
def applyLoop (env : PatchEnv) (reverse : Bool) :
    List (List Char) → Option Nat × List (List Char)
  | [] => (none, [])
  | p :: rest =>
      match run (env.applyStatus p reverse) with
      | some code => (some code, [p])
      | none =>
          let r := applyLoop env reverse rest
          (r.1, p :: r.2)

/-- patch_vlc.py `apply_patches` (lines 94-120): return immediately when
the patches directory is absent or holds no `*.patch` file, otherwise
apply the sorted patch files in order. -/
def apply_patches (env : PatchEnv) (reverse : Bool) :
    Option Nat × List (List Char) :=
  if env.patchesDirExists = false then
    (none, [])
  else
    let patch_files := sortNames env.patchNames
    if patch_files.isEmpty then
      (none, [])
    else
      applyLoop env reverse patch_files

/-- A concrete patch environment exercising the orchestrator: three
patches, of which `a.patch` applies cleanly, `b.patch` fails with
status 3, and `c.patch` would fail with status 5. -/
def samplePatchEnv : PatchEnv :=
  { patchesDirExists := true
    patchNames := ["b.patch".data, "c.patch".data, "a.patch".data]
    applyStatus := fun q _ =>
      if q = "a.patch".data then 0 else if q = "b.patch".data then 3 else 5 }

/-! Basic lemmas about the character-level primitives. -/

theorem startsWithL_append_self (p r : List Char) :
    startsWithL p (p ++ r) = true := by
  induction p with
  | nil => rfl
  | cons c cs ih => simp [startsWithL, ih]

theorem startsWithL_cons_cons (p c : Char) (ps cs : List Char) :
    startsWithL (p :: ps) (c :: cs) = ((p == c) && startsWithL ps cs) := rfl

theorem startsWithL_concat_cases (p x : List Char) (c : Char)
    (h : startsWithL p (x ++ [c]) = true) :
    startsWithL p x = true ∨ p = x ++ [c] := by
  induction p generalizing x with
  | nil => exact Or.inl rfl
  | cons a ps ih =>
    cases x with
    | nil =>
      simp [startsWithL] at h
      cases ps with
      | nil => simp [startsWithL] at h ⊢; simp [h]
      | cons b bs => simp [startsWithL] at h
    | cons b bs =>
      rw [List.cons_append, startsWithL_cons_cons] at h
      simp only [Bool.and_eq_true] at h
      obtain ⟨hab, htail⟩ := h
      rcases ih bs htail with h1 | h2
      · exact Or.inl (by rw [startsWithL_cons_cons, hab, h1]; rfl)
      · right
        rw [List.cons_append, h2]
        rw [beq_iff_eq] at hab
        rw [hab]

theorem startsWithL_false_of_head_ne (p c : Char) (ps cs : List Char)
    (h : (p == c) = false) : startsWithL (p :: ps) (c :: cs) = false := by
  simp [startsWithL, h]

theorem lstrip_cons (c : Char) (l : List Char) :
    lstrip (c :: l) = if Char.isWhitespace c then lstrip l else c :: l := by
  simp [lstrip, List.dropWhile_cons]

theorem lstrip_append_newline (l : Line) :
    lstrip (l ++ ['\n']) = if (lstrip l).isEmpty then [] else lstrip l ++ ['\n'] := by
  induction l with
  | nil => decide
  | cons c cs ih =>
    rw [List.cons_append, lstrip_cons, lstrip_cons]
    by_cases hc : Char.isWhitespace c
    · simp [hc, ih]
    · simp [hc, List.isEmpty]

/-! Lemmas about the canonical line and the matching predicate. -/

theorem targetLine_eq_key_append (p : Line) :
    targetLine p = "soundfont=".data ++ ('"' :: (p ++ "\"\n".data)) := by
  show ("soundfont=\"".data ++ p ++ "\"\n".data) = _
  rw [show ("soundfont=\"".data) = "soundfont=".data ++ ['"'] from rfl]
  simp [List.append_assoc]

theorem targetLine_cons (p : Line) :
    targetLine p = 's' :: ("oundfont=\"".data ++ (p ++ "\"\n".data)) := by
  show ("soundfont=\"".data ++ p ++ "\"\n".data) = _
  rw [show ("soundfont=\"".data) = 's' :: "oundfont=\"".data from rfl]
  simp [List.append_assoc]

theorem lstrip_targetLine (p : Line) : lstrip (targetLine p) = targetLine p := by
  rw [targetLine_cons, lstrip_cons]
  simp [show Char.isWhitespace 's' = false from rfl]

theorem activeSoundfont_targetLine (p : Line) :
    activeSoundfont (targetLine p) = true := by
  rw [activeSoundfont, lstrip_targetLine, targetLine_eq_key_append]
  exact startsWithL_append_self _ _

theorem matchesSoundfont_targetLine (p : Line) :
    matchesSoundfont (targetLine p) = true := by
  have h := activeSoundfont_targetLine p
  rw [activeSoundfont] at h
  rw [matchesSoundfont, h, Bool.true_or]

theorem ne_targetLine_of_not_matches (l : Line) (p : Line)
    (h : matchesSoundfont l = false) : l ≠ targetLine p := by
  intro he
  rw [he, matchesSoundfont_targetLine] at h
  exact Bool.true_eq_false.mp h

theorem startsWithL_append_newline_false (p x : List Char)
    (hp : p.getLast? ≠ some '\n') (h : startsWithL p x = false) :
    startsWithL p (x ++ ['\n']) = false := by
  cases hk : startsWithL p (x ++ ['\n']) with
  | false => rfl
  | true =>
    rcases startsWithL_concat_cases p x '\n' hk with h1 | h2
    · rw [h1] at h; exact absurd h (by simp)
    · exact absurd (by rw [h2]; exact List.getLast?_concat x) hp

theorem matchesSoundfont_append_newline (l : Line)
    (h : matchesSoundfont l = false) :
    matchesSoundfont (l ++ ['\n']) = false := by
  rw [matchesSoundfont] at h
  simp only [Bool.or_eq_false_iff] at h
  obtain ⟨h1, h2⟩ := h
  rw [matchesSoundfont, lstrip_append_newline]
  by_cases he : (lstrip l).isEmpty
  · simp only [he, if_pos]; decide
  · simp only [he, if_neg, Bool.false_eq_true, not_false_eq_true]
    rw [startsWithL_append_newline_false _ _ (by decide) h1,
      startsWithL_append_newline_false _ _ (by decide) h2]
    rfl

/-! Lemmas about `ensureTrailingNewline`. -/

theorem length_ensureTrailingNewline (ls : List Line) :
    (ensureTrailingNewline ls).length = ls.length := by
  induction ls with
  | nil => rfl
  | cons l ls ih =>
    cases ls with
    | nil => simp only [ensureTrailingNewline]; split <;> rfl
    | cons b bs =>
      simp only [ensureTrailingNewline, List.length_cons]
      rw [ih]
      simp

theorem ensureTrailingNewline_eq_of_last_newline (ls : List Line)
    (h : ls.getLast?.all endsWithNewline = true) :
    ensureTrailingNewline ls = ls := by
  induction ls with
  | nil => rfl
  | cons l ls ih =>
    cases ls with
    | nil =>
      simp only [List.getLast?_singleton, Option.all_some] at h
      simp [ensureTrailingNewline, h]
    | cons b bs =>
      rw [List.getLast?_cons_cons] at h
      simp only [ensureTrailingNewline]
      rw [ih h]

theorem ensureTrailingNewline_eq_dropLast (ls : List Line) (l : Line)
    (h : ls.getLast? = some l) (hn : endsWithNewline l = false) :
    ensureTrailingNewline ls = ls.dropLast ++ [l ++ ['\n']] := by
  induction ls with
  | nil => simp at h
  | cons a ls ih =>
    cases ls with
    | nil =>
      simp only [List.getLast?_singleton, Option.some.injEq] at h
      subst h
      simp [ensureTrailingNewline, hn]
    | cons b bs =>
      rw [List.getLast?_cons_cons] at h
      simp only [ensureTrailingNewline]
      rw [ih h]
      simp

theorem mem_ensureTrailingNewline (ls : List Line) (x : Line)
    (hx : x ∈ ensureTrailingNewline ls) :
    x ∈ ls ∨ ∃ y, y ∈ ls ∧ x = y ++ ['\n'] := by
  induction ls with
  | nil => simp [ensureTrailingNewline] at hx
  | cons l ls ih =>
    cases ls with
    | nil =>
      simp only [ensureTrailingNewline] at hx
      by_cases hl : endsWithNewline l
      · simp [hl] at hx
        exact Or.inl (by simp [hx])
      · simp [hl] at hx
        exact Or.inr ⟨l, by simp, hx⟩
    | cons b bs =>
      simp only [ensureTrailingNewline, List.mem_cons] at hx
      rcases hx with hx | hx
      · exact Or.inl (by simp [hx])
      · rcases ih hx with h1 | ⟨y, hy, he⟩
        · exact Or.inl (List.mem_cons_of_mem _ h1)
        · exact Or.inr ⟨y, List.mem_cons_of_mem _ hy, he⟩

theorem ensureTrailingNewline_not_matches (ls : List Line)
    (h : ls.any matchesSoundfont = false) (x : Line)
    (hx : x ∈ ensureTrailingNewline ls) : matchesSoundfont x = false := by
  have hall : ∀ y ∈ ls, matchesSoundfont y = false := by
    intro y hy
    by_contra hc
    rw [List.any_eq_false] at h
    exact h y hy (by revert hc; cases matchesSoundfont y <;> simp)
  rcases mem_ensureTrailingNewline ls x hx with h1 | ⟨y, hy, he⟩
  · exact hall x h1
  · rw [he]
    exact matchesSoundfont_append_newline y (hall y hy)

theorem ensureTrailingNewline_getElem?_of_lt (ls : List Line) (i : Nat)
    (h : i + 1 < ls.length) : (ensureTrailingNewline ls)[i]? = ls[i]? := by
  induction ls generalizing i with
  | nil => simp at h
  | cons l ls ih =>
    cases ls with
    | nil => simp at h
    | cons b bs =>
      simp only [ensureTrailingNewline]
      cases i with
      | zero => simp
      | succ j =>
        simp only [List.getElem?_cons_succ]
        exact ih j (by simpa using Nat.lt_of_succ_lt_succ (by simpa using h))

/-! Lemmas about `update_soundfont_in_lines`. -/

theorem matchesSoundfont_of_active (l : Line) (h : activeSoundfont l = true) :
    matchesSoundfont l = true := by
  rw [activeSoundfont] at h
  rw [matchesSoundfont, h, Bool.true_or]

theorem sepCommentLine_not_matches : matchesSoundfont sepCommentLine = false := by
  decide

theorem update_eq_map_of_found (lines : List Line) (p : Line)
    (h : lines.any matchesSoundfont = true) :
    update_soundfont_in_lines lines p =
      lines.map (fun l => if matchesSoundfont l then targetLine p else l) := by
  simp [update_soundfont_in_lines, h]

theorem map_replace_eq_self (lines : List Line) (p : Line)
    (h : lines.any matchesSoundfont = false) :
    lines.map (fun l => if matchesSoundfont l then targetLine p else l) = lines := by
  rw [List.any_eq_false] at h
  conv_rhs => rw [← List.map_id lines]
  apply List.map_congr_left
  intro a ha
  have : matchesSoundfont a = false := by
    have := h a ha
    revert this
    cases matchesSoundfont a <;> simp
  simp [this]

theorem update_eq_append_of_not_found (lines : List Line) (p : Line)
    (h : lines.any matchesSoundfont = false) :
    update_soundfont_in_lines lines p =
      ensureTrailingNewline lines ++ [sepCommentLine, targetLine p] := by
  simp only [update_soundfont_in_lines, h]
  rw [map_replace_eq_self lines p h]
  simp

theorem filter_matches_map_replace (lines : List Line) (p : Line) :
    ((lines.map (fun l => if matchesSoundfont l then targetLine p else l)).filter
        matchesSoundfont)
      = List.replicate ((lines.filter matchesSoundfont).length) (targetLine p) := by
  induction lines with
  | nil => rfl
  | cons l ls ih =>
    cases hl : matchesSoundfont l with
    | true =>
      simp only [List.map_cons, hl, if_pos, List.filter_cons, matchesSoundfont_targetLine]
      simp [ih, List.replicate_succ]
    | false =>
      simp only [List.map_cons, hl, if_neg, List.filter_cons]
      simp [hl, ih]

theorem filter_not_matches_map_replace (lines : List Line) (p : Line) :
    ((lines.map (fun l => if matchesSoundfont l then targetLine p else l)).filter
        (fun l => !matchesSoundfont l))
      = lines.filter (fun l => !matchesSoundfont l) := by
  induction lines with
  | nil => rfl
  | cons l ls ih =>
    cases hl : matchesSoundfont l with
    | true =>
      simp only [List.map_cons, hl, if_pos, List.filter_cons, matchesSoundfont_targetLine]
      simp [hl, ih]
    | false =>
      simp only [List.map_cons, hl, if_neg, List.filter_cons]
      simp [hl, ih]

theorem update_any_active (lines : List Line) (p : Line) :
    (update_soundfont_in_lines lines p).any activeSoundfont = true := by
  cases hf : lines.any matchesSoundfont with
  | false =>
    rw [update_eq_append_of_not_found lines p hf]
    refine List.any_eq_true.mpr ⟨targetLine p, by simp, activeSoundfont_targetLine p⟩
  | true =>
    rw [update_eq_map_of_found lines p hf]
    obtain ⟨x, hx, hmx⟩ := List.any_eq_true.mp hf
    refine List.any_eq_true.mpr
      ⟨targetLine p, List.mem_map.mpr ⟨x, hx, by simp [hmx]⟩, activeSoundfont_targetLine p⟩

theorem update_matching_eq_target (lines : List Line) (p : Line) (y : Line)
    (hy : y ∈ update_soundfont_in_lines lines p)
    (hmy : matchesSoundfont y = true) : y = targetLine p := by
  cases hf : lines.any matchesSoundfont with
  | true =>
    rw [update_eq_map_of_found lines p hf] at hy
    obtain ⟨x, _, hxy⟩ := List.mem_map.mp hy
    cases hmx : matchesSoundfont x with
    | true => rw [← hxy]; simp [hmx]
    | false =>
      rw [hmx] at hxy
      simp at hxy
      rw [← hxy] at hmy
      rw [hmy] at hmx
      exact absurd hmx (by simp)
  | false =>
    rw [update_eq_append_of_not_found lines p hf] at hy
    rcases List.mem_append.mp hy with h1 | h2
    · have := ensureTrailingNewline_not_matches lines hf y h1
      rw [this] at hmy
      exact absurd hmy (by simp)
    · rcases List.mem_cons.mp h2 with h3 | h4
      · rw [h3] at hmy
        rw [sepCommentLine_not_matches] at hmy
        exact absurd hmy (by simp)
      · simpa using h4

theorem update_idem (lines : List Line) (p : Line) :
    update_soundfont_in_lines (update_soundfont_in_lines lines p) p =
      update_soundfont_in_lines lines p := by
  have hfound : (update_soundfont_in_lines lines p).any matchesSoundfont = true := by
    obtain ⟨x, hx, hax⟩ := List.any_eq_true.mp (update_any_active lines p)
    exact List.any_eq_true.mpr ⟨x, hx, matchesSoundfont_of_active x hax⟩
  rw [update_eq_map_of_found _ p hfound]
  conv_rhs => rw [← List.map_id (update_soundfont_in_lines lines p)]
  apply List.map_congr_left
  intro y hy
  cases hmy : matchesSoundfont y with
  | true => simp [update_matching_eq_target lines p y hy hmy]
  | false => simp

/-! Lemmas about the patch-application loop. -/

theorem applyLoop_all_ok (env : PatchEnv) (reverse : Bool) (l : List (List Char))
    (h : ∀ q ∈ l, env.applyStatus q reverse = 0) :
    applyLoop env reverse l = (none, l) := by
  induction l with
  | nil => rfl
  | cons p ps ih =>
    have hp : env.applyStatus p reverse = 0 := h p (by simp)
    simp only [applyLoop, run, hp, if_pos]
    rw [ih (fun q hq => h q (List.mem_cons_of_mem _ hq))]

theorem applyLoop_first_fail (env : PatchEnv) (reverse : Bool)
    (l : List (List Char)) (fail : List Char) (rest : List (List Char))
    (h : l.drop (l.takeWhile (fun q => env.applyStatus q reverse == 0)).length
      = fail :: rest) :
    applyLoop env reverse l =
      (some (env.applyStatus fail reverse),
        l.takeWhile (fun q => env.applyStatus q reverse == 0) ++ [fail]) ∧
    env.applyStatus fail reverse ≠ 0 := by
  induction l with
  | nil => simp at h
  | cons p ps ih =>
    cases hok : (env.applyStatus p reverse == 0) with
    | true =>
      have hz : env.applyStatus p reverse = 0 := by simpa using hok
      simp only [List.takeWhile_cons, hok, if_pos, List.length_cons,
        List.drop_succ_cons] at h
      obtain ⟨h1, h2⟩ := ih h
      refine ⟨?_, h2⟩
      simp only [applyLoop, run, hz, if_pos, h1]
      simp only [List.takeWhile_cons, hok, if_pos]
      simp
    | false =>
      have hnz : env.applyStatus p reverse ≠ 0 := by simpa using hok
      simp only [List.takeWhile_cons, hok] at h
      simp only [if_neg, Bool.false_eq_true, not_false_eq_true,
        List.length_nil, List.drop_zero] at h
      injection h with hf hr
      subst hf
      refine ⟨?_, hnz⟩
      simp only [applyLoop, run, hnz, if_neg]
      simp [List.takeWhile_cons, hok]

theorem found_of_filter_pos (lines : List Line)
    (h : 1 ≤ (lines.filter matchesSoundfont).length) :
    lines.any matchesSoundfont = true := by
  cases hx : lines.filter matchesSoundfont with
  | nil => rw [hx] at h; simp at h
  | cons y ys =>
    have hy : y ∈ lines.filter matchesSoundfont := by rw [hx]; simp
    obtain ⟨h1, h2⟩ := List.mem_filter.mp hy
    exact List.any_eq_true.mpr ⟨y, h1, h2⟩

/-- C1: the claim that after a merge the document contains exactly one
active soundfont line is refuted when the input holds two matching
lines: both are replaced with the canonical line, so the merged
document contains two active soundfont lines. -/
theorem C1_counterexample :
    ((update_soundfont_in_lines ["soundfont=a\n".data, "soundfont=b\n".data]
        "/x.sf2".data).filter activeSoundfont).length ≠ 1 := by
  decide

/-- C1 (amended): after a merge the document contains at least one
active soundfont line; the lines matching the key are exactly
`max 1 N` copies of the canonical line, where `N` is the number of
matching input lines; and the non-matching lines are preserved
verbatim in their original relative order — except that, when no line
matched, a missing trailing newline is first added to the final line
and the separator-comment line is appended. -/
theorem C1_invariant (lines : List Line) (p : Line) :
    (update_soundfont_in_lines lines p).any activeSoundfont = true
    ∧ (update_soundfont_in_lines lines p).filter matchesSoundfont
      = List.replicate (max 1 (lines.filter matchesSoundfont).length) (targetLine p)
    ∧ (update_soundfont_in_lines lines p).filter (fun l => !matchesSoundfont l)
      = (if lines.any matchesSoundfont = true then
          lines.filter (fun l => !matchesSoundfont l)
        else ensureTrailingNewline lines ++ [sepCommentLine]) := by
  refine ⟨update_any_active lines p, ?_, ?_⟩
  · cases hf : lines.any matchesSoundfont with
    | true =>
      rw [update_eq_map_of_found lines p hf, filter_matches_map_replace]
      obtain ⟨x, hx, hmx⟩ := List.any_eq_true.mp hf
      have hmem : x ∈ lines.filter matchesSoundfont := List.mem_filter.mpr ⟨hx, hmx⟩
      have hpos : 1 ≤ (lines.filter matchesSoundfont).length :=
        List.length_pos.mpr (List.ne_nil_of_mem hmem)
      rw [Nat.max_eq_right hpos]
    | false =>
      rw [update_eq_append_of_not_found lines p hf]
      have hnil : lines.filter matchesSoundfont = [] := by
        rw [List.any_eq_false] at hf
        exact List.filter_eq_nil_iff.mpr (fun a ha => hf a ha)
      rw [List.filter_append, hnil]
      have hens : (ensureTrailingNewline lines).filter matchesSoundfont = [] :=
        List.filter_eq_nil_iff.mpr (fun a ha => by
          rw [ensureTrailingNewline_not_matches lines hf a ha]; simp)
      rw [hens]
      simp [List.filter_cons, sepCommentLine_not_matches, matchesSoundfont_targetLine]
  · cases hf : lines.any matchesSoundfont with
    | true =>
      rw [update_eq_map_of_found lines p hf, filter_not_matches_map_replace]
      simp
    | false =>
      rw [update_eq_append_of_not_found lines p hf]
      rw [List.filter_append]
      have hens : (ensureTrailingNewline lines).filter (fun l => !matchesSoundfont l)
          = ensureTrailingNewline lines :=
        List.filter_eq_self.mpr (fun a ha => by
          rw [ensureTrailingNewline_not_matches lines hf a ha]; simp)
      rw [hens]
      simp [List.filter_cons, sepCommentLine_not_matches, matchesSoundfont_targetLine]

/-- C2: when the input holds `N ≥ 2` lines matching the key, the merge
replaces every one of them with the identical canonical line (the `N`
duplicates remain — no deduplication), keeps the total line count
unchanged, and preserves all non-matching lines verbatim and in
order. -/
theorem C2_all_duplicates_replaced (lines : List Line) (p : Line)
    (h : 2 ≤ (lines.filter matchesSoundfont).length) :
    (update_soundfont_in_lines lines p).length = lines.length
    ∧ (update_soundfont_in_lines lines p).filter matchesSoundfont
      = List.replicate ((lines.filter matchesSoundfont).length) (targetLine p)
    ∧ (update_soundfont_in_lines lines p).filter (fun l => !matchesSoundfont l)
      = lines.filter (fun l => !matchesSoundfont l) := by
  have hf : lines.any matchesSoundfont = true :=
    found_of_filter_pos lines (Nat.le_trans (by decide) h)
  rw [update_eq_map_of_found lines p hf]
  exact ⟨List.length_map _ _, filter_matches_map_replace lines p,
    filter_not_matches_map_replace lines p⟩

/-- C2 witness: a three-line document with two matching lines (one
commented, one not). -/
theorem C2_all_duplicates_replaced_witness :
    2 ≤ ((["soundfont=a\n".data, "x\n".data, "#soundfont=b\n".data] : List Line).filter
      matchesSoundfont).length
    ∧ ((update_soundfont_in_lines
          ["soundfont=a\n".data, "x\n".data, "#soundfont=b\n".data] "/a.sf2".data).length
        = (["soundfont=a\n".data, "x\n".data, "#soundfont=b\n".data] : List Line).length
      ∧ (update_soundfont_in_lines
          ["soundfont=a\n".data, "x\n".data, "#soundfont=b\n".data] "/a.sf2".data).filter
            matchesSoundfont
        = List.replicate
            (((["soundfont=a\n".data, "x\n".data, "#soundfont=b\n".data] : List Line).filter
              matchesSoundfont).length) (targetLine "/a.sf2".data)
      ∧ (update_soundfont_in_lines
          ["soundfont=a\n".data, "x\n".data, "#soundfont=b\n".data] "/a.sf2".data).filter
            (fun l => !matchesSoundfont l)
        = (["soundfont=a\n".data, "x\n".data, "#soundfont=b\n".data] : List Line).filter
            (fun l => !matchesSoundfont l)) :=
  ⟨by decide, C2_all_duplicates_replaced _ _ (by decide)⟩

/-- C3: when the input holds exactly one line matching the key
(commented or not), the merge keeps the line count, replaces exactly
that line with the canonical line, preserves all other lines verbatim
and in order, and is idempotent: merging the output again with the
same setting yields a content-equal result. -/
theorem C3_single_match (lines : List Line) (p : Line)
    (h : (lines.filter matchesSoundfont).length = 1) :
    (update_soundfont_in_lines lines p).length = lines.length
    ∧ (update_soundfont_in_lines lines p).filter matchesSoundfont = [targetLine p]
    ∧ (update_soundfont_in_lines lines p).filter (fun l => !matchesSoundfont l)
      = lines.filter (fun l => !matchesSoundfont l)
    ∧ update_soundfont_in_lines (update_soundfont_in_lines lines p) p
      = update_soundfont_in_lines lines p := by
  have hf : lines.any matchesSoundfont = true :=
    found_of_filter_pos lines (by rw [h])
  refine ⟨?_, ?_, ?_, update_idem lines p⟩
  · rw [update_eq_map_of_found lines p hf]
    exact List.length_map _ _
  · rw [update_eq_map_of_found lines p hf, filter_matches_map_replace, h]
    rfl
  · rw [update_eq_map_of_found lines p hf, filter_not_matches_map_replace]

/-- C3 witness: the spec's example, a commented match plus an unrelated
line. -/
theorem C3_single_match_witness :
    ((["#soundfont=\n".data, "foo=1\n".data] : List Line).filter
      matchesSoundfont).length = 1
    ∧ ((update_soundfont_in_lines ["#soundfont=\n".data, "foo=1\n".data]
          "/x/y.sf2".data).length
        = (["#soundfont=\n".data, "foo=1\n".data] : List Line).length
      ∧ (update_soundfont_in_lines ["#soundfont=\n".data, "foo=1\n".data]
          "/x/y.sf2".data).filter matchesSoundfont = [targetLine "/x/y.sf2".data]
      ∧ (update_soundfont_in_lines ["#soundfont=\n".data, "foo=1\n".data]
          "/x/y.sf2".data).filter (fun l => !matchesSoundfont l)
        = (["#soundfont=\n".data, "foo=1\n".data] : List Line).filter
            (fun l => !matchesSoundfont l)
      ∧ update_soundfont_in_lines
          (update_soundfont_in_lines ["#soundfont=\n".data, "foo=1\n".data]
            "/x/y.sf2".data) "/x/y.sf2".data
        = update_soundfont_in_lines ["#soundfont=\n".data, "foo=1\n".data]
            "/x/y.sf2".data) :=
  ⟨by decide, C3_single_match _ _ (by decide)⟩

/-- C4: when no input line matches the key, the merge appends exactly
one canonical setting line, preceded by the blank-separator-and-comment
element, after ensuring the final existing line ends with a newline;
the original lines (with that sole newline adjustment) are preserved
unchanged and in order, and when the final line already ended with a
newline the originals are preserved exactly. -/
theorem C4_append_when_missing (lines : List Line) (p : Line)
    (h : lines.any matchesSoundfont = false) :
    (update_soundfont_in_lines lines p).length = lines.length + 2
    ∧ (update_soundfont_in_lines lines p).filter matchesSoundfont = [targetLine p]
    ∧ (update_soundfont_in_lines lines p).take lines.length
      = ensureTrailingNewline lines
    ∧ (update_soundfont_in_lines lines p).drop lines.length
      = [sepCommentLine, targetLine p]
    ∧ (lines.getLast?.all endsWithNewline = true →
        update_soundfont_in_lines lines p
          = lines ++ [sepCommentLine, targetLine p]) := by
  rw [update_eq_append_of_not_found lines p h]
  have hlen : (ensureTrailingNewline lines).length = lines.length :=
    length_ensureTrailingNewline lines
  refine ⟨?_, ?_, ?_, ?_, ?_⟩
  · rw [List.length_append, hlen]
    rfl
  · have hens : (ensureTrailingNewline lines).filter matchesSoundfont = [] :=
      List.filter_eq_nil_iff.mpr (fun a ha => by
        rw [ensureTrailingNewline_not_matches lines h a ha]; simp)
    rw [List.filter_append, hens]
    simp [List.filter_cons, sepCommentLine_not_matches, matchesSoundfont_targetLine]
  · rw [← hlen]
    exact List.take_left _ _
  · rw [← hlen]
    exact List.drop_left _ _
  · intro hlast
    rw [ensureTrailingNewline_eq_of_last_newline lines hlast]

/-- C4 witness: a single unrelated line ending in a newline. -/
theorem C4_append_when_missing_witness :
    (["foo=1\n".data] : List Line).any matchesSoundfont = false
    ∧ ((update_soundfont_in_lines ["foo=1\n".data] "/a.sf2".data).length
        = (["foo=1\n".data] : List Line).length + 2
      ∧ (update_soundfont_in_lines ["foo=1\n".data] "/a.sf2".data).filter
          matchesSoundfont = [targetLine "/a.sf2".data]
      ∧ (update_soundfont_in_lines ["foo=1\n".data] "/a.sf2".data).take
          (["foo=1\n".data] : List Line).length
        = ensureTrailingNewline ["foo=1\n".data]
      ∧ (update_soundfont_in_lines ["foo=1\n".data] "/a.sf2".data).drop
          (["foo=1\n".data] : List Line).length
        = [sepCommentLine, targetLine "/a.sf2".data]
      ∧ ((["foo=1\n".data] : List Line).getLast?.all endsWithNewline = true →
          update_soundfont_in_lines ["foo=1\n".data] "/a.sf2".data
            = ["foo=1\n".data] ++ [sepCommentLine, targetLine "/a.sf2".data])) :=
  ⟨by decide, C4_append_when_missing _ _ (by decide)⟩

/-- C5: the claim that merging the empty document yields the
three-element sequence is refuted: the code appends the blank line and
the comment line as one element, so the result has two elements, not
three. -/
theorem C5_counterexample :
    update_soundfont_in_lines [] "/a.sf2".data
      ≠ ["\n".data, "# Set by configure_vlc_soundfont.py\n".data,
         "soundfont=\"/a.sf2\"\n".data] := by
  decide

/-- C5 (amended): merging the empty document with value `/a.sf2` yields
the two-element sequence whose first element is the blank line and the
comment line joined, and whose concatenated text equals that of the
claimed three-element sequence. -/
theorem C5_empty_input :
    update_soundfont_in_lines [] "/a.sf2".data
      = ["\n# Set by configure_vlc_soundfont.py\n".data,
         "soundfont=\"/a.sf2\"\n".data]
    ∧ (update_soundfont_in_lines [] "/a.sf2".data).flatten
      = (["\n".data, "# Set by configure_vlc_soundfont.py\n".data,
          "soundfont=\"/a.sf2\"\n".data] : List Line).flatten := by
  constructor <;> decide

/-- C6: the configure operation is fail-fast.  When the SoundFont path
is not a regular file a `FileNotFoundError` is raised; otherwise when
`APPDATA` is unset a `RuntimeError` is raised; in both cases the error
occurs before any read or write of the configuration file, and the
whole filesystem state — in particular the configuration file and its
backup — is unchanged. -/
theorem C6_fail_fast (sf : Line) (s : FS)
    (h : s.sfIsFile = false ∨ s.appdata = none) :
    (configure_vlc_soundfont sf s).1 =
      Except.error (if s.sfIsFile then ConfigError.appdataMissing
        else ConfigError.fileNotFound)
    ∧ (configure_vlc_soundfont sf s).2 = s := by
  rcases h with h | h
  · simp [configure_vlc_soundfont, h]
  · cases hf : s.sfIsFile with
    | false => simp [configure_vlc_soundfont, hf]
    | true => simp [configure_vlc_soundfont, get_vlc_config_file, hf, h]

/-- C6 witness: a state with a missing SoundFont file. -/
theorem C6_fail_fast_witness :
    ((FS.mk false none false none none).sfIsFile = false
      ∨ (FS.mk false none false none none).appdata = none)
    ∧ ((configure_vlc_soundfont "/a.sf2".data (FS.mk false none false none none)).1 =
        Except.error (if (FS.mk false none false none none).sfIsFile then
          ConfigError.appdataMissing else ConfigError.fileNotFound)
      ∧ (configure_vlc_soundfont "/a.sf2".data (FS.mk false none false none none)).2
        = FS.mk false none false none none) :=
  ⟨Or.inl rfl, C6_fail_fast _ _ (Or.inl rfl)⟩

theorem configure_preserves_backup (sf : Line) (s : FS) (b : List Line)
    (h : s.backup = some b) :
    ((configure_vlc_soundfont sf s).2).backup = some b := by
  cases hf2 : s.sfIsFile with
  | false => simp [configure_vlc_soundfont, hf2, h]
  | true =>
    cases ha2 : s.appdata with
    | none => simp [configure_vlc_soundfont, get_vlc_config_file, hf2, ha2, h]
    | some a =>
      cases hc2 : s.config with
      | none =>
        simp [configure_vlc_soundfont, get_vlc_config_file, backup_file, hf2,
          ha2, hc2, h]
      | some c =>
        simp [configure_vlc_soundfont, get_vlc_config_file, backup_file, hf2,
          ha2, hc2, h]

theorem configureMany_preserves_backup (sfs : List Line) (s : FS) (b : List Line)
    (h : s.backup = some b) : (configureMany sfs s).backup = some b := by
  induction sfs generalizing s with
  | nil => exact h
  | cons sf rest ih =>
    rw [configureMany, List.foldl_cons]
    exact ih _ (configure_preserves_backup sf s b h)

/-- C7: given a pre-existing configuration file and no pre-existing
backup, a first successful merge run creates the backup with content
equal to the pre-merge configuration content, and every subsequent
run — any number of further invocations, with any SoundFont paths —
leaves that backup content unchanged (the copy happens only when no
backup exists yet). -/
theorem C7_backup_once (sf : Line) (sfs : List Line) (s : FS) (content : List Line)
    (hc : s.config = some content) (hb : s.backup = none)
    (hf : s.sfIsFile = true) (ha : s.appdata.isSome = true) :
    (configure_vlc_soundfont sf s).1 = Except.ok ()
    ∧ ((configure_vlc_soundfont sf s).2).backup = some content
    ∧ (configureMany sfs ((configure_vlc_soundfont sf s).2)).backup
      = some content := by
  obtain ⟨a, ha2⟩ := Option.isSome_iff_exists.mp ha
  have hmain : (configure_vlc_soundfont sf s).1 = Except.ok ()
      ∧ ((configure_vlc_soundfont sf s).2).backup = some content := by
    simp [configure_vlc_soundfont, get_vlc_config_file, backup_file, hf, ha2, hc, hb]
  exact ⟨hmain.1, hmain.2,
    configureMany_preserves_backup sfs _ content hmain.2⟩

/-- C7 witness: a one-line pre-existing configuration file, followed by
two further runs with different SoundFont paths. -/
theorem C7_backup_once_witness :
    (FS.mk true (some "A".data) true (some ["x\n".data]) none).config
      = some ["x\n".data]
    ∧ (FS.mk true (some "A".data) true (some ["x\n".data]) none).backup = none
    ∧ (FS.mk true (some "A".data) true (some ["x\n".data]) none).sfIsFile = true
    ∧ (FS.mk true (some "A".data) true (some ["x\n".data]) none).appdata.isSome = true
    ∧ ((configure_vlc_soundfont "/a.sf2".data
          (FS.mk true (some "A".data) true (some ["x\n".data]) none)).1 = Except.ok ()
      ∧ ((configure_vlc_soundfont "/a.sf2".data
          (FS.mk true (some "A".data) true (some ["x\n".data]) none)).2).backup
        = some ["x\n".data]
      ∧ (configureMany ["/b.sf2".data, "/c.sf2".data]
          ((configure_vlc_soundfont "/a.sf2".data
            (FS.mk true (some "A".data) true (some ["x\n".data]) none)).2)).backup
        = some ["x\n".data]) :=
  ⟨rfl, rfl, rfl, rfl, C7_backup_once _ _ _ _ rfl rfl rfl rfl⟩

/-- C8: when some patch in the lexicographically ordered patch set
fails to apply, `apply_patches` attempts exactly the successful prefix
plus the failing patch — no patch after the failing one is attempted —
and the process terminates with the failing `git apply` invocation's
own (non-zero) exit status. -/
theorem C8_fail_stops (env : PatchEnv) (reverse : Bool) (fail : List Char)
    (rest : List (List Char))
    (hd : env.patchesDirExists = true)
    (h : (sortNames env.patchNames).drop
        ((sortNames env.patchNames).takeWhile
          (fun q => env.applyStatus q reverse == 0)).length = fail :: rest) :
    apply_patches env reverse =
      (some (env.applyStatus fail reverse),
        (sortNames env.patchNames).takeWhile
          (fun q => env.applyStatus q reverse == 0) ++ [fail])
    ∧ env.applyStatus fail reverse ≠ 0 := by
  have hne : (sortNames env.patchNames).isEmpty = false := by
    cases hx : sortNames env.patchNames with
    | nil => rw [hx] at h; simp at h
    | cons y ys => rfl
  obtain ⟨h1, h2⟩ := applyLoop_first_fail env reverse _ fail rest h
  refine ⟨?_, h2⟩
  simp only [apply_patches, hd, hne]
  simp only [Bool.true_eq_false, if_neg, Bool.false_eq_true, not_false_eq_true]
  exact h1

/-- C8 witness: in `samplePatchEnv`, the lexicographically first patch
succeeds, the second fails with status 3, and the third is never
attempted. -/
theorem C8_fail_stops_witness :
    samplePatchEnv.patchesDirExists = true
    ∧ ((sortNames samplePatchEnv.patchNames).drop
        ((sortNames samplePatchEnv.patchNames).takeWhile
          (fun q => samplePatchEnv.applyStatus q false == 0)).length
        = "b.patch".data :: ["c.patch".data])
    ∧ (apply_patches samplePatchEnv false =
        (some (samplePatchEnv.applyStatus "b.patch".data false),
          (sortNames samplePatchEnv.patchNames).takeWhile
            (fun q => samplePatchEnv.applyStatus q false == 0)
            ++ ["b.patch".data])
      ∧ samplePatchEnv.applyStatus "b.patch".data false ≠ 0) :=
  ⟨rfl, by decide,
    C8_fail_stops samplePatchEnv false "b.patch".data ["c.patch".data] rfl (by decide)⟩

/-- C9: when the patches directory does not exist, or exists but holds
no patch file, `apply_patches` attempts nothing and returns without
terminating the process, so the run proceeds. -/
theorem C9_noop (env : PatchEnv) (reverse : Bool)
    (h : env.patchesDirExists = false ∨ env.patchNames = []) :
    apply_patches env reverse = (none, []) := by
  rcases h with h | h
  · simp [apply_patches, h]
  · cases hd : env.patchesDirExists with
    | false => simp [apply_patches, hd]
    | true => simp [apply_patches, hd, h, sortNames]

/-- C9 witness: an existing but empty patches directory. -/
theorem C9_noop_witness :
    ((PatchEnv.mk true [] (fun _ _ => 7)).patchesDirExists = false
      ∨ (PatchEnv.mk true [] (fun _ _ => 7)).patchNames = [])
    ∧ apply_patches (PatchEnv.mk true [] (fun _ _ => 7)) false = (none, []) :=
  ⟨Or.inr rfl, C9_noop _ false (Or.inr rfl)⟩

theorem lstrip_hash_head (x : List Char) (h : startsWithL "#".data x = true) :
    ∃ t, x = '#' :: t := by
  cases x with
  | nil => simp [show ("#".data) = ['#'] from rfl, startsWithL] at h
  | cons c cs =>
    rw [show ("#".data) = ['#'] from rfl, startsWithL_cons_cons] at h
    simp only [Bool.and_eq_true, beq_iff_eq] at h
    exact ⟨cs, by rw [h.1]⟩

theorem not_matches_of_comment_space (l : Line)
    (h1 : startsWithL "#".data (lstrip l) = true)
    (h2 : startsWithL "#soundfont=".data (lstrip l) = false) :
    matchesSoundfont l = false := by
  obtain ⟨t, ht⟩ := lstrip_hash_head (lstrip l) h1
  rw [ht] at h2
  rw [matchesSoundfont, ht]
  rw [show ("soundfont=".data) = 's' :: "oundfont=".data from rfl]
  rw [startsWithL_false_of_head_ne 's' '#' _ _ (by decide), h2]
  rfl

/-- C10: the claim that a commented line with whitespace between the
comment marker and the key is preserved verbatim in place is refuted at
the input `["# soundfont=x"]`: the line is indeed not a match, but
since no line matched and it is the final line without a trailing
newline, the append step adds a newline to it, so the original line
text occurs nowhere in the output. -/
theorem C10_counterexample :
    ¬ (("# soundfont=x".data : Line) ∈
        update_soundfont_in_lines ["# soundfont=x".data] "/a.sf2".data) := by
  decide

/-- C10 (amended): a line whose stripped form starts with `#` but not
with `#soundfont=` (such as `# soundfont=...`) is never treated as a
match, and it is preserved verbatim at its position — except that, when
it is the final line, lacks a trailing newline, and no line in the
document matched, the append step first adds a newline to it. -/
theorem C10_comment_space_not_match (lines : List Line) (p : Line) (i : Nat)
    (l : Line) (hget : lines[i]? = some l)
    (h1 : startsWithL "#".data (lstrip l) = true)
    (h2 : startsWithL "#soundfont=".data (lstrip l) = false)
    (hsafe : lines.any matchesSoundfont = true ∨ i + 1 < lines.length
      ∨ endsWithNewline l = true) :
    matchesSoundfont l = false
    ∧ (update_soundfont_in_lines lines p)[i]? = some l := by
  have hm : matchesSoundfont l = false := not_matches_of_comment_space l h1 h2
  refine ⟨hm, ?_⟩
  have hi : i < lines.length := by
    by_contra hc
    rw [List.getElem?_eq_none (Nat.le_of_not_lt hc)] at hget
    cases hget
  cases hf : lines.any matchesSoundfont with
  | true =>
    rw [update_eq_map_of_found lines p hf, List.getElem?_map, hget]
    simp [hm]
  | false =>
    rw [update_eq_append_of_not_found lines p hf]
    rw [List.getElem?_append_left (by rw [length_ensureTrailingNewline]; exact hi)]
    rcases hsafe with hs | hs | hs
    · rw [hs] at hf; cases hf
    · rw [ensureTrailingNewline_getElem?_of_lt lines i hs]
      exact hget
    · rcases Nat.lt_or_ge (i + 1) lines.length with hlt | hge
      · rw [ensureTrailingNewline_getElem?_of_lt lines i hlt]
        exact hget
      · have hie : i = lines.length - 1 := by omega
        have hlast : lines.getLast? = some l := by
          rw [List.getLast?_eq_getElem?, ← hie, hget]
        rw [ensureTrailingNewline_eq_of_last_newline lines (by rw [hlast]; simpa using hs)]
        exact hget

/-- C10 witness: a spaced comment line followed by another line, with a
genuine match elsewhere absent but the line not final. -/
theorem C10_comment_space_not_match_witness :
    ((["# soundfont=x\n".data, "foo\n".data] : List Line)[0]?
      = some "# soundfont=x\n".data)
    ∧ startsWithL "#".data (lstrip "# soundfont=x\n".data) = true
    ∧ startsWithL "#soundfont=".data (lstrip "# soundfont=x\n".data) = false
    ∧ ((["# soundfont=x\n".data, "foo\n".data] : List Line).any matchesSoundfont = true
      ∨ 0 + 1 < (["# soundfont=x\n".data, "foo\n".data] : List Line).length
      ∨ endsWithNewline "# soundfont=x\n".data = true)
    ∧ (matchesSoundfont "# soundfont=x\n".data = false
      ∧ (update_soundfont_in_lines ["# soundfont=x\n".data, "foo\n".data]
          "/a.sf2".data)[0]? = some "# soundfont=x\n".data) :=
  ⟨by decide, by decide, by decide, Or.inr (Or.inl (by decide)),
    C10_comment_space_not_match _ "/a.sf2".data 0 _ (by decide) (by decide) (by decide)
      (Or.inr (Or.inl (by decide)))⟩

end VLCRepair
